import Mathlib

/-!
# Shallow embedding of `send.py` (elk-with-log-folder-parser)

This file embeds the send pipeline of `src/send.py` in Lean 4:
line parsing (`log_parse`), file processing (`process_log_file`),
batched TCP delivery (`send_to_logstash`) and the orchestrator's
retry loop (`main`'s `while not success` loop), and proves the
specification's claims about them.

I/O effects (socket connections, socket writes, file reads, sleeping)
are modelled by explicit parameters: a `Net` value fixes the outcome of
the connection attempt and of each successive `sendall` call, a `PyFile`
value fixes what opening and reading a file yields, and the retry loop
is a step function on an explicit `LoopState`.
-/

namespace SendPy

/-! ## Python `str.strip` model

`str.strip()` with no argument removes leading and trailing whitespace.
We model the whitespace set by the ASCII whitespace characters Python
recognises (space, tab, newline, carriage return, vertical tab, form feed);
the claims do not depend on the additional Unicode whitespace code points.
-/

def pyIsSpace (c : Char) : Bool :=
  c = ' ' || c = '\t' || c = '\n' || c = '\x0d' || c = '\x0b' || c = '\x0c'

/-- Remove leading and trailing characters satisfying `pyIsSpace` from a
character list: drop from the front, then drop from the back. -/
def stripChars (l : List Char) : List Char :=
  ((l.dropWhile pyIsSpace).reverse.dropWhile pyIsSpace).reverse

/-- Model of Python `line.strip()`. -/
def pyStrip (s : String) : String :=
  ⟨stripChars s.data⟩

/-! ## `log_parse` (src/send.py lines 14-25) -/

/-- The record produced by `log_parse`: a dict with the single key
`raw_content` holding the stripped line. -/
structure Record where
  raw_content : String
deriving DecidableEq, Repr

/-- Embedding of `log_parse`: strip the line; if the stripped line is
non-empty (Python truthiness of a string) return the record, else `None`. -/
def log_parse (line : String) : Option Record :=
  let stripped_line := pyStrip line
  if stripped_line ≠ "" then some { raw_content := stripped_line }
  else none

/-! ## Python values and `json.dumps`

`send_to_logstash` receives a list of arbitrary Python values and calls
`json.dumps` on each; serialization can fail (`TypeError`/`OverflowError`)
for non-JSON-serializable values. For this program it is enough to
distinguish string-keyed dicts of strings — the only shape the pipeline
ever builds (`log_parse` returns `\x7b"raw_content": <text>\x7d`) — from
an opaque value `json.dumps` rejects (a set, a function object, ...). -/

inductive PyVal where
  | dict : List (String × String) → PyVal
  | unserializable : PyVal
deriving DecidableEq, Repr

def hexDigit (n : Nat) : Char :=
  if n < 10 then Char.ofNat (48 + n) else Char.ofNat (87 + n)

def hex4 (n : Nat) : String :=
  ⟨[hexDigit (n / 4096 % 16), hexDigit (n / 256 % 16), hexDigit (n / 16 % 16), hexDigit (n % 16)]⟩

/-- `json.dumps` escaping of one character inside a string literal
(default `ensure_ascii=True`). -/
def escapeChar (c : Char) : String :=
  if c = '"' then "\\\""
  else if c = '\\' then "\\\\"
  else if c = '\n' then "\\n"
  else if c = '\t' then "\\t"
  else if c = '\x0d' then "\\r"
  else if c = '\x08' then "\\b"
  else if c = '\x0c' then "\\f"
  else if c.toNat < 0x20 then "\\u" ++ hex4 c.toNat
  else if c.toNat ≤ 0x7e then String.singleton c
  else if c.toNat ≤ 0xffff then "\\u" ++ hex4 c.toNat
  else "\\u" ++ hex4 (0xd800 + (c.toNat - 0x10000) / 0x400)
       ++ "\\u" ++ hex4 (0xdc00 + (c.toNat - 0x10000) % 0x400)

/-- `json.dumps` encoding of a Python string. -/
def escapeString (s : String) : String :=
  "\"" ++ String.join (s.data.map escapeChar) ++ "\""

/-- `json.dumps`'s item separator `", "` between the entries of a dict. -/
def joinComma : List String → String
  | [] => ""
  | [s] => s
  | s :: rest => s ++ ", " ++ joinComma rest

/-- Model of `json.dumps`: `none` when serialization raises
(`TypeError`/`OverflowError`), `some` of the encoded text otherwise. -/
def dumps : PyVal → Option String
  | .dict kvs =>
    some ("\x7b"
      ++ joinComma (kvs.map fun kv => escapeString kv.1 ++ ": " ++ escapeString kv.2)
      ++ "\x7d")
  | .unserializable => none

/-- The dict value a `Record` is in the Python program:
`\x7b"raw_content": <text>\x7d`. -/
def Record.toPyVal (r : Record) : PyVal :=
  .dict [("raw_content", r.raw_content)]

/-! ## `send_to_logstash` (src/send.py lines 27-74)

The network is modelled by the outcome of the single connection attempt
and the outcome of each successive `sock.sendall` call. -/

structure Net where
  connect_ok : Bool
  write_ok : Nat → Bool

/-- Observable outcome of one `send_to_logstash` call: the returned
boolean, how many connection attempts were made, and the buffers passed
to `sock.sendall` in order (the last one being the failing call when a
write fails). -/
structure SendResult where
  success : Bool
  connectAttempts : Nat
  writes : List String
deriving DecidableEq, Repr

/-- The inner serialization loop of one batch:
`batch_str = ""; for data in batch: batch_str += json.dumps(data) + '\n'`,
skipping items whose serialization raises. -/
def serializeBatch (batch : List PyVal) : String :=
  batch.foldl
    (fun batch_str data =>
      match dumps data with
      | some js => batch_str ++ (js ++ "\n")
      | none => batch_str)
    ""

/-- Fuel-driven worker for `chunk100` (structural recursion on the fuel,
so that concrete instances evaluate); the fuel never runs out when it
starts at the list's length, since every step consumes at least one
element. -/
def chunkGo : Nat → List PyVal → List (List PyVal)
  | _, [] => []
  | 0, rem => [rem]
  | fuel + 1, d :: rest => (d :: rest).take 100 :: chunkGo fuel ((d :: rest).drop 100)

/-- The slices `data_list[i:i+100]` for `i in range(0, len(data_list), 100)`:
consecutive chunks of size 100, the last one possibly smaller. -/
def chunk100 (l : List PyVal) : List (List PyVal) :=
  chunkGo l.length l

/-- The batch loop of `send_to_logstash`: serialize each batch, skip the
write when the whole batch serialized to the empty string, call `sendall`
otherwise (`k` counts the `sendall` calls made so far), and return
`False` as soon as a `sendall` raises `socket.error`. -/
def sendBatches (write_ok : Nat → Bool) : List (List PyVal) → Nat → Bool × List String
  | [], _ => (true, [])
  | batch :: rest, k =>
    let batch_str := serializeBatch batch
    if batch_str = "" then sendBatches write_ok rest k
    else if write_ok k then
      let r := sendBatches write_ok rest (k + 1)
      (r.1, batch_str :: r.2)
    else (false, [batch_str])

/-- Embedding of `send_to_logstash`: empty list returns `True` with no
connection; otherwise one connection attempt, then the batch loop; a
connection failure returns `False` with no writes. -/
def send_to_logstash (net : Net) (data_list : List PyVal) : SendResult :=
  if data_list.isEmpty then { success := true, connectAttempts := 0, writes := [] }
  else if net.connect_ok then
    let r := sendBatches net.write_ok (chunk100 data_list) 0
    { success := r.1, connectAttempts := 1, writes := r.2 }
  else { success := false, connectAttempts := 1, writes := [] }

/-! ## `process_log_file` (src/send.py lines 76-90)

Opening and reading a file is modelled by a `PyFile`: `openResult = none`
when `open` raises (`FileNotFoundError`, permissions, ...); otherwise
`some (ls, readError)` where `ls` are the lines the iteration yielded
before it ended, and `readError` records whether it ended by raising an
exception mid-read (caught by the `except Exception` clause) instead of
reaching end of file. -/

structure PyFile where
  openResult : Option (List String × Bool)

/-- Embedding of `process_log_file`: both `except` clauses only print, and
`processed_data` — the parsed records of the lines read so far — is
returned on every path. -/
def process_log_file (f : PyFile) : List Record :=
  match f.openResult with
  | none => []
  | some (ls, _) => ls.filterMap log_parse

/-! ## `main` (src/send.py lines 92-174)

The processing loop accumulates `process_log_file` over the collected
files in order (`data_to_send.extend(...)`), and the records are the
dicts handed to `send_to_logstash`. -/

/-- The processing loop: `for log_file in all_files: data_to_send.extend(process_log_file(log_file))`. -/
def collectRecords (all_files : List PyFile) : List Record :=
  all_files.foldl (fun data_to_send f => data_to_send ++ process_log_file f) []

def RECONNECT_DELAY_SECONDS : Nat := 5

/-- State of the retry loop `while not success:` at line 168: the list
handed to `send_to_logstash`, the `success` flag, the number of
`send_to_logstash` calls made, and the total seconds passed to
`time.sleep`. -/
structure LoopState where
  data_to_send : List PyVal
  success : Bool
  attempts : Nat
  sleptSeconds : Nat

/-- One iteration of the retry loop: when not yet successful, call
`send_to_logstash` with the (unchanged) full list; on failure sleep
`RECONNECT_DELAY_SECONDS` before the next iteration. -/
def loop_step (net : Net) (st : LoopState) : LoopState :=
  if st.success then st
  else
    let r := send_to_logstash net st.data_to_send
    if r.success then
      { st with success := true, attempts := st.attempts + 1 }
    else
      { st with attempts := st.attempts + 1,
                sleptSeconds := st.sleptSeconds + RECONNECT_DELAY_SECONDS }

/-- Run `n` iterations of the retry loop; the network outcome of the
`i`-th `send_to_logstash` attempt is `nets i`. -/
def run_send_loop (nets : Nat → Net) (st : LoopState) : Nat → LoopState
  | 0 => st
  | n + 1 => run_send_loop nets (loop_step (nets st.attempts) st) n

/-- The loop's initial state for a record list `data_to_send`. -/
def initLoopState (data_to_send : List PyVal) : LoopState :=
  { data_to_send := data_to_send, success := false, attempts := 0, sleptSeconds := 0 }

/-! ## Lemmas about `pyStrip` -/

/-- A prefix of a list that front-`dropWhile` leaves unchanged is itself
left unchanged by front-`dropWhile`. -/
theorem dropWhile_of_prefix (p : Char → Bool) {A B t : List Char}
    (hA : A.dropWhile p = A) (hAB : A = B ++ t) : B.dropWhile p = B := by
  cases B with
  | nil => simp
  | cons b bs =>
    subst hAB
    by_cases hb : p b
    · exfalso
      rw [List.cons_append, List.dropWhile_cons, if_pos hb] at hA
      have hle := (List.dropWhile_sublist (l := bs ++ t) p).length_le
      have hlen := congrArg List.length hA
      rw [List.length_cons] at hlen
      omega
    · rw [List.dropWhile_cons]
      simp [hb]

/-- `stripChars l` written as the front-stripped list minus a stripped suffix. -/
theorem dropWhile_stripChars (l : List Char) :
    (stripChars l).dropWhile pyIsSpace = stripChars l := by
  have h1 : (l.dropWhile pyIsSpace).dropWhile pyIsSpace = l.dropWhile pyIsSpace :=
    List.dropWhile_idempotent pyIsSpace l
  have h2 : l.dropWhile pyIsSpace =
      stripChars l ++ ((l.dropWhile pyIsSpace).reverse.takeWhile pyIsSpace).reverse := by
    have h3 := List.takeWhile_append_dropWhile (p := pyIsSpace)
      (l := (l.dropWhile pyIsSpace).reverse)
    calc l.dropWhile pyIsSpace = (l.dropWhile pyIsSpace).reverse.reverse := by
          rw [List.reverse_reverse]
      _ = ((l.dropWhile pyIsSpace).reverse.takeWhile pyIsSpace
            ++ (l.dropWhile pyIsSpace).reverse.dropWhile pyIsSpace).reverse := by rw [h3]
      _ = stripChars l ++ ((l.dropWhile pyIsSpace).reverse.takeWhile pyIsSpace).reverse := by
          rw [List.reverse_append]; rfl
  exact dropWhile_of_prefix pyIsSpace h1 h2

/-- Stripping is idempotent at the character-list level. -/
theorem stripChars_idem (l : List Char) : stripChars (stripChars l) = stripChars l := by
  have h1 := dropWhile_stripChars l
  show ((((stripChars l).dropWhile pyIsSpace).reverse.dropWhile pyIsSpace)).reverse = stripChars l
  rw [h1]
  have h2 : (stripChars l).reverse = (l.dropWhile pyIsSpace).reverse.dropWhile pyIsSpace := by
    show (((l.dropWhile pyIsSpace).reverse.dropWhile pyIsSpace).reverse).reverse = _
    rw [List.reverse_reverse]
  rw [h2, List.dropWhile_idempotent, ← h2, List.reverse_reverse]

/-- `pyStrip` is idempotent. -/
theorem pyStrip_idem (s : String) : pyStrip (pyStrip s) = pyStrip s := by
  show (⟨stripChars (stripChars s.data)⟩ : String) = ⟨stripChars s.data⟩
  rw [stripChars_idem]

/-! ## Lemmas about `chunk100` -/

/-- The fuel is irrelevant as long as it dominates the list length. -/
theorem chunkGo_congr (n : Nat) : ∀ (fuel₁ fuel₂ : Nat) (l : List PyVal),
    l.length ≤ n → l.length ≤ fuel₁ → l.length ≤ fuel₂ →
    chunkGo fuel₁ l = chunkGo fuel₂ l := by
  induction n with
  | zero =>
    intro fuel₁ fuel₂ l hn _ _
    have : l = [] := List.length_eq_zero.mp (Nat.le_zero.mp hn)
    subst this
    cases fuel₁ <;> cases fuel₂ <;> rfl
  | succ n ih =>
    intro fuel₁ fuel₂ l hn h₁ h₂
    cases l with
    | nil => cases fuel₁ <;> cases fuel₂ <;> rfl
    | cons d rest =>
      simp only [List.length_cons] at hn h₁ h₂
      obtain ⟨f₁, rfl⟩ : ∃ f, fuel₁ = f + 1 := ⟨fuel₁ - 1, by omega⟩
      obtain ⟨f₂, rfl⟩ : ∃ f, fuel₂ = f + 1 := ⟨fuel₂ - 1, by omega⟩
      show _ :: chunkGo f₁ ((d :: rest).drop 100) = _ :: chunkGo f₂ ((d :: rest).drop 100)
      have hd : ((d :: rest).drop 100).length ≤ rest.length := by
        rw [List.length_drop, List.length_cons]; omega
      rw [ih f₁ f₂ ((d :: rest).drop 100) (by omega) (by omega) (by omega)]

/-- The recurrence `chunk100` satisfies: slice off the first 100 elements. -/
theorem chunk100_cons (d : PyVal) (rest : List PyVal) :
    chunk100 (d :: rest) = (d :: rest).take 100 :: chunk100 ((d :: rest).drop 100) := by
  show chunkGo (rest.length + 1) (d :: rest) = _
  show _ :: chunkGo rest.length ((d :: rest).drop 100)
      = _ :: chunkGo ((d :: rest).drop 100).length ((d :: rest).drop 100)
  have hd : ((d :: rest).drop 100).length ≤ rest.length := by
    rw [List.length_drop, List.length_cons]; omega
  rw [chunkGo_congr rest.length _ _ _ hd hd (Nat.le_refl _)]

/-- Concatenating the slices recovers the original list. -/
theorem chunk100_flatten_aux (n : Nat) : ∀ l : List PyVal, l.length ≤ n →
    (chunk100 l).flatten = l := by
  induction n with
  | zero =>
    intro l hn
    have : l = [] := List.length_eq_zero.mp (Nat.le_zero.mp hn)
    subst this; rfl
  | succ n ih =>
    intro l hn
    cases l with
    | nil => rfl
    | cons d rest =>
      rw [chunk100_cons, List.flatten_cons,
        ih ((d :: rest).drop 100) (by rw [List.length_drop]; simp at hn ⊢; omega),
        List.take_append_drop]

/-- The number of slices is `⌈length / 100⌉`. -/
theorem chunk100_length_aux (n : Nat) : ∀ l : List PyVal, l.length ≤ n →
    (chunk100 l).length = (l.length + 99) / 100 := by
  induction n with
  | zero =>
    intro l hn
    have : l = [] := List.length_eq_zero.mp (Nat.le_zero.mp hn)
    subst this; rfl
  | succ n ih =>
    intro l hn
    cases l with
    | nil => rfl
    | cons d rest =>
      rw [chunk100_cons, List.length_cons,
        ih ((d :: rest).drop 100) (by rw [List.length_drop]; simp at hn ⊢; omega),
        List.length_drop]
      simp only [List.length_cons]
      omega

/-- Every slice is nonempty and has at most 100 elements, and every slice
other than the last has exactly 100. -/
theorem chunk100_sizes_aux (n : Nat) : ∀ l : List PyVal, l.length ≤ n →
    (∀ b ∈ chunk100 l, b ≠ [] ∧ b.length ≤ 100) ∧
    (∀ i, i + 1 < (chunk100 l).length → ((chunk100 l).getD i []).length = 100) := by
  induction n with
  | zero =>
    intro l hn
    have : l = [] := List.length_eq_zero.mp (Nat.le_zero.mp hn)
    subst this
    refine ⟨fun b hb => absurd hb (by simp [chunk100, chunkGo]), ?_⟩
    intro i hi
    simp [chunk100, chunkGo] at hi
  | succ n ih =>
    intro l hn
    cases l with
    | nil =>
      refine ⟨fun b hb => absurd hb (by simp [chunk100, chunkGo]), ?_⟩
      intro i hi
      simp [chunk100, chunkGo] at hi
    | cons d rest =>
      have hdrop : ((d :: rest).drop 100).length ≤ n := by
        rw [List.length_drop]; simp at hn ⊢; omega
      obtain ⟨ih₁, ih₂⟩ := ih ((d :: rest).drop 100) hdrop
      rw [chunk100_cons]
      constructor
      · intro b hb
        rcases List.mem_cons.mp hb with hb | hb
        · subst hb
          refine ⟨by simp, ?_⟩
          rw [List.length_take]; omega
        · exact ih₁ b hb
      · intro i hi
        cases i with
        | zero =>
          simp only [List.getD_cons_zero]
          rw [List.length_cons] at hi
          have hne : chunk100 ((d :: rest).drop 100) ≠ [] := by
            intro hemp
            rw [hemp] at hi
            simp at hi
          have hlen : (d :: rest).length > 100 := by
            by_contra hle
            push_neg at hle
            have : (d :: rest).drop 100 = [] := List.drop_eq_nil_of_le hle
            rw [this] at hne
            exact hne rfl
          rw [List.length_take]
          simp only [List.length_cons] at hlen ⊢
          omega
        | succ i =>
          simp only [List.getD_cons_succ]
          apply ih₂
          rw [List.length_cons] at hi
          omega

/-! ## Lemmas about `serializeBatch` and `sendBatches` -/

/-- Concatenation of a list of strings (the spec's "concatenation of all
written buffers"). -/
def concatAll : List String → String
  | [] => ""
  | s :: rest => s ++ concatAll rest

/-- The wire encoding one value contributes: its `json.dumps` text plus
the newline delimiter, or nothing when serialization fails. -/
def wireLine (d : PyVal) : String :=
  match dumps d with
  | some js => js ++ "\n"
  | none => ""

theorem concatAll_append (l₁ l₂ : List String) :
    concatAll (l₁ ++ l₂) = concatAll l₁ ++ concatAll l₂ := by
  induction l₁ with
  | nil => rw [List.nil_append, concatAll, String.empty_append]
  | cons s rest ih =>
    rw [List.cons_append, concatAll, concatAll, ih, String.append_assoc]

/-- The `batch_str` accumulation loop, run from an arbitrary prefix. -/
theorem serializeBatch_foldl (batch : List PyVal) : ∀ acc : String,
    batch.foldl
      (fun batch_str data =>
        match dumps data with
        | some js => batch_str ++ (js ++ "\n")
        | none => batch_str)
      acc = acc ++ concatAll (batch.map wireLine) := by
  induction batch with
  | nil => intro acc; rw [List.foldl_nil, List.map_nil, concatAll, String.append_empty]
  | cons d rest ih =>
    intro acc
    rw [List.foldl_cons, List.map_cons, concatAll, ih, wireLine]
    cases h : dumps d with
    | none => rw [String.empty_append]
    | some js => rw [String.append_assoc]

/-- `serializeBatch` is the concatenation of the per-value wire lines. -/
theorem serializeBatch_eq (batch : List PyVal) :
    serializeBatch batch = concatAll (batch.map wireLine) := by
  rw [serializeBatch, serializeBatch_foldl, String.empty_append]

theorem serializeBatch_append (l₁ l₂ : List PyVal) :
    serializeBatch (l₁ ++ l₂) = serializeBatch l₁ ++ serializeBatch l₂ := by
  rw [serializeBatch_eq, serializeBatch_eq, serializeBatch_eq, List.map_append,
    concatAll_append]

/-- A batch containing a serializable value serializes to a nonempty
buffer (every contributed line ends in the newline delimiter). -/
theorem serializeBatch_ne_empty (batch : List PyVal) (d : PyVal) (hd : d ∈ batch)
    (hser : dumps d ≠ none) : serializeBatch batch ≠ "" := by
  intro hempty
  rw [serializeBatch_eq] at hempty
  have hlen := congrArg String.length hempty
  obtain ⟨l₁, l₂, rfl⟩ := List.append_of_mem hd
  rw [List.map_append, List.map_cons, concatAll_append, concatAll,
    String.length_append, String.length_append] at hlen
  obtain ⟨js, hjs⟩ := Option.ne_none_iff_exists'.mp hser
  have hw : (wireLine d).length = js.length + 1 := by
    simp only [wireLine, hjs, String.length_append]
    rfl
  rw [hw] at hlen
  have h0 : ("" : String).length = 0 := rfl
  rw [h0] at hlen
  omega

/-- The nonempty batch buffers, in order: these are exactly the buffers
`send_to_logstash` hands to `sock.sendall` when no write fails. -/
def nonemptyBufs (bs : List (List PyVal)) : List String :=
  (bs.map serializeBatch).filter (fun s => s != "")

theorem nonemptyBufs_nil : nonemptyBufs [] = [] := rfl

theorem nonemptyBufs_cons (b : List PyVal) (rest : List (List PyVal)) :
    nonemptyBufs (b :: rest) =
      if serializeBatch b = "" then nonemptyBufs rest
      else serializeBatch b :: nonemptyBufs rest := by
  rw [nonemptyBufs, List.map_cons, List.filter_cons]
  by_cases h : serializeBatch b = ""
  · simp [h, nonemptyBufs]
  · simp [h, nonemptyBufs]

/-- Unfolding equation of the batch loop at a cons, with the `let`
bindings of the source reduced. -/
theorem sendBatches_cons (write_ok : Nat → Bool) (b : List PyVal)
    (rest : List (List PyVal)) (k : Nat) :
    sendBatches write_ok (b :: rest) k =
      if serializeBatch b = "" then sendBatches write_ok rest k
      else if write_ok k then
        ((sendBatches write_ok rest (k + 1)).1,
          serializeBatch b :: (sendBatches write_ok rest (k + 1)).2)
      else (false, [serializeBatch b]) := rfl

/-- When every `sendall` the loop reaches succeeds, the batch loop
returns `True` and writes exactly the nonempty batch buffers in order. -/
theorem sendBatches_all_ok (write_ok : Nat → Bool) :
    ∀ (bs : List (List PyVal)) (k : Nat),
    (∀ i, i < (nonemptyBufs bs).length → write_ok (k + i) = true) →
    sendBatches write_ok bs k = (true, nonemptyBufs bs) := by
  intro bs
  induction bs with
  | nil => intro k _; rw [nonemptyBufs_nil]; rfl
  | cons b rest ih =>
    intro k hok
    rw [nonemptyBufs_cons] at hok ⊢
    rw [sendBatches_cons]
    by_cases hb : serializeBatch b = ""
    · rw [if_pos hb] at hok ⊢
      rw [if_pos hb]
      exact ih k hok
    · rw [if_neg hb] at hok ⊢
      rw [if_neg hb]
      have h0 : write_ok k = true := by
        have := hok 0 (by rw [List.length_cons]; omega)
        rwa [Nat.add_zero] at this
      rw [h0, if_pos rfl]
      have hrest : ∀ i, i < (nonemptyBufs rest).length → write_ok (k + 1 + i) = true := by
        intro i hi
        have := hok (i + 1) (by rw [List.length_cons]; omega)
        rwa [show k + (i + 1) = k + 1 + i by omega] at this
      rw [ih (k + 1) hrest]

/-- When the `j`-th `sendall` the loop makes is the first to fail, the
batch loop returns `False` at once: the buffers passed to `sendall` are
exactly the first `j` nonempty buffers plus the failing one, and all
later batches are abandoned. -/
theorem sendBatches_first_fail (write_ok : Nat → Bool) :
    ∀ (bs : List (List PyVal)) (k j : Nat),
    j < (nonemptyBufs bs).length → write_ok (k + j) = false →
    (∀ i, i < j → write_ok (k + i) = true) →
    sendBatches write_ok bs k = (false, (nonemptyBufs bs).take (j + 1)) := by
  intro bs
  induction bs with
  | nil => intro k j hj _ _; rw [nonemptyBufs_nil] at hj; cases hj
  | cons b rest ih =>
    intro k j hj hfail hok
    rw [nonemptyBufs_cons] at hj ⊢
    rw [sendBatches_cons]
    by_cases hb : serializeBatch b = ""
    · rw [if_pos hb] at hj ⊢
      rw [if_pos hb]
      exact ih k j hj hfail hok
    · rw [if_neg hb] at hj ⊢
      rw [if_neg hb]
      cases j with
      | zero =>
        rw [Nat.add_zero] at hfail
        rw [hfail]
        rw [if_neg (by simp)]
        rw [List.take_succ_cons, List.take_zero]
      | succ j =>
        have h0 : write_ok k = true := by
          have := hok 0 (by omega)
          rwa [Nat.add_zero] at this
        rw [h0, if_pos rfl]
        have hj' : j < (nonemptyBufs rest).length := by
          rw [List.length_cons] at hj; omega
        have hfail' : write_ok (k + 1 + j) = false := by
          rwa [show k + 1 + j = k + (j + 1) by omega]
        have hok' : ∀ i, i < j → write_ok (k + 1 + i) = true := by
          intro i hi
          have := hok (i + 1) (by omega)
          rwa [show k + (i + 1) = k + 1 + i by omega] at this
        rw [ih (k + 1) j hj' hfail' hok', List.take_succ_cons]

theorem concatAll_map_serializeBatch (bs : List (List PyVal)) :
    concatAll (bs.map serializeBatch) = serializeBatch bs.flatten := by
  induction bs with
  | nil => rfl
  | cons b rest ih =>
    rw [List.map_cons, concatAll, ih, List.flatten_cons, serializeBatch_append]

/-- Unfolding equation of `send_to_logstash` on a nonempty list. -/
theorem send_to_logstash_cons (net : Net) (d : PyVal) (rest : List PyVal) :
    send_to_logstash net (d :: rest) =
      if net.connect_ok then
        { success := (sendBatches net.write_ok (chunk100 (d :: rest)) 0).1,
          connectAttempts := 1,
          writes := (sendBatches net.write_ok (chunk100 (d :: rest)) 0).2 }
      else { success := false, connectAttempts := 1, writes := [] } := rfl

/-- When every value serializes, no batch buffer is empty, so every batch
is written. -/
theorem nonemptyBufs_chunk100 (data : List PyVal)
    (hser : ∀ d ∈ data, dumps d ≠ none) :
    nonemptyBufs (chunk100 data) = (chunk100 data).map serializeBatch := by
  apply List.filter_eq_self.mpr
  intro s hs
  obtain ⟨b, hb, rfl⟩ := List.mem_map.mp hs
  obtain ⟨hbne, -⟩ := (chunk100_sizes_aux data.length data (Nat.le_refl _)).1 b hb
  obtain ⟨d, rest, rfl⟩ := List.exists_cons_of_ne_nil hbne
  have hmem : d ∈ data := by
    rw [← chunk100_flatten_aux data.length data (Nat.le_refl _)]
    exact List.mem_flatten.mpr ⟨d :: rest, hb, List.mem_cons_self d rest⟩
  have := serializeBatch_ne_empty (d :: rest) d (List.mem_cons_self d rest) (hser d hmem)
  simpa using this

/-! ## Claims C1 and C8 -/

/-- C1: `log_parse` returns skip (`none`) iff the stripped line is
empty; otherwise it returns a record whose `raw_content` is exactly the
stripped line. -/
theorem log_parse_skip_iff (line : String) :
    (log_parse line = none ↔ pyStrip line = "") ∧
    (∀ r, log_parse line = some r → r.raw_content = pyStrip line) := by
  constructor
  · simp only [log_parse]
    by_cases h : pyStrip line = "" <;> simp [h]
  · intro r hr
    simp only [log_parse] at hr
    by_cases h : pyStrip line = ""
    · simp [h] at hr
    · rw [if_pos h] at hr
      injection hr with hr
      rw [← hr]

/-- Closed instance of C1 at a concrete line. -/
theorem log_parse_skip_iff_witness :
    (log_parse "  x " = none ↔ pyStrip "  x " = "") ∧
    (∀ r, log_parse "  x " = some r → r.raw_content = pyStrip "  x ") :=
  log_parse_skip_iff "  x "

/-- C8: parsing is idempotent on its own output: re-parsing the
`raw_content` of a produced record yields the same record. -/
theorem log_parse_idem (line : String) (r : Record)
    (h : log_parse line = some r) : log_parse r.raw_content = some r := by
  simp only [log_parse] at h ⊢
  by_cases hs : pyStrip line = ""
  · simp [hs] at h
  · rw [if_pos hs] at h
    injection h with h
    rw [← h]
    show (if pyStrip (pyStrip line) ≠ "" then _ else none) = _
    rw [pyStrip_idem, if_pos hs]

/-- Closed instance of C8: `"  hi  "` parses to the record `"hi"`, which
re-parses to itself. -/
theorem log_parse_idem_witness :
    log_parse (Record.mk "hi").raw_content = some (Record.mk "hi") :=
  log_parse_idem "  hi  " (Record.mk "hi") (by decide)

/-! ## Claims C2, C5 and C6 -/

/-- C2: against an accepting endpoint, with more than 100 records all of
which serialize, one `send_to_logstash` call succeeds and performs exactly
`⌈N / 100⌉` socket writes, one per batch of the order-preserving partition
of the list into consecutive batches of size 100 (last possibly smaller),
and the concatenation of the written buffers is exactly the records'
JSON-plus-newline encodings in the original order. -/
theorem send_all_batches (data : List PyVal) (net : Net)
    (hN : 100 < data.length)
    (hser : ∀ d ∈ data, dumps d ≠ none)
    (hconn : net.connect_ok = true)
    (hwr : ∀ k, net.write_ok k = true) :
    send_to_logstash net data =
      { success := true, connectAttempts := 1,
        writes := (chunk100 data).map serializeBatch } ∧
    ((chunk100 data).map serializeBatch).length = (data.length + 99) / 100 ∧
    (chunk100 data).flatten = data ∧
    (∀ b ∈ chunk100 data, b ≠ [] ∧ b.length ≤ 100) ∧
    (∀ i, i + 1 < (chunk100 data).length → ((chunk100 data).getD i []).length = 100) ∧
    concatAll ((chunk100 data).map serializeBatch) =
      concatAll (data.map fun d => (dumps d).getD "" ++ "\n") := by
  have hflat := chunk100_flatten_aux data.length data (Nat.le_refl _)
  have hsizes := chunk100_sizes_aux data.length data (Nat.le_refl _)
  have hnb := nonemptyBufs_chunk100 data hser
  refine ⟨?_, ?_, hflat, hsizes.1, hsizes.2, ?_⟩
  · obtain ⟨d, rest, rfl⟩ := List.exists_cons_of_ne_nil
      (by intro h; rw [h] at hN; simp at hN : data ≠ [])
    rw [send_to_logstash_cons, if_pos hconn,
      sendBatches_all_ok net.write_ok _ 0 (fun i _ => hwr (0 + i)), hnb]
  · rw [List.length_map, chunk100_length_aux data.length data (Nat.le_refl _)]
  · rw [concatAll_map_serializeBatch, hflat, serializeBatch_eq]
    congr 1
    apply List.map_eq_map_iff.mpr
    intro d hd
    obtain ⟨js, hjs⟩ := Option.ne_none_iff_exists'.mp (hser d hd)
    rw [wireLine, hjs, Option.getD_some]

/-- Closed instance of C2: 101 identical records, accepting endpoint. -/
theorem send_all_batches_witness :
    send_to_logstash { connect_ok := true, write_ok := fun _ => true }
        (List.replicate 101 (Record.mk "x").toPyVal) =
      { success := true, connectAttempts := 1,
        writes := (chunk100 (List.replicate 101 (Record.mk "x").toPyVal)).map serializeBatch } ∧
    ((chunk100 (List.replicate 101 (Record.mk "x").toPyVal)).map serializeBatch).length =
      ((List.replicate 101 (Record.mk "x").toPyVal).length + 99) / 100 ∧
    (chunk100 (List.replicate 101 (Record.mk "x").toPyVal)).flatten =
      List.replicate 101 (Record.mk "x").toPyVal ∧
    (∀ b ∈ chunk100 (List.replicate 101 (Record.mk "x").toPyVal), b ≠ [] ∧ b.length ≤ 100) ∧
    (∀ i, i + 1 < (chunk100 (List.replicate 101 (Record.mk "x").toPyVal)).length →
      ((chunk100 (List.replicate 101 (Record.mk "x").toPyVal)).getD i []).length = 100) ∧
    concatAll ((chunk100 (List.replicate 101 (Record.mk "x").toPyVal)).map serializeBatch) =
      concatAll ((List.replicate 101 (Record.mk "x").toPyVal).map
        fun d => (dumps d).getD "" ++ "\n") :=
  send_all_batches (List.replicate 101 (Record.mk "x").toPyVal)
    { connect_ok := true, write_ok := fun _ => true }
    (by simp)
    (by intro d hd; rw [List.eq_of_mem_replicate hd]; simp [dumps, Record.toPyVal])
    rfl
    (fun _ => rfl)

/-- C5: with an empty record list, `send_to_logstash` returns success at
once, opening no connection and writing nothing. -/
theorem send_empty_no_network (net : Net) :
    send_to_logstash net [] =
      { success := true, connectAttempts := 0, writes := [] } := rfl

/-- C6: with a nonempty record list, a connection failure returns `False`
with no write at all, and a first `sendall` failure at index `j` returns
`False` with exactly the first `j` successful buffers plus the failing
one — every remaining batch is abandoned, nothing is retried internally,
and no exception escapes (the embedding is total). -/
theorem send_failure_aborts (data : List PyVal) (net : Net) (hd : data ≠ []) :
    (net.connect_ok = false →
      send_to_logstash net data =
        { success := false, connectAttempts := 1, writes := [] }) ∧
    (∀ j, net.connect_ok = true →
      j < (nonemptyBufs (chunk100 data)).length →
      net.write_ok j = false →
      (∀ i, i < j → net.write_ok i = true) →
      send_to_logstash net data =
        { success := false, connectAttempts := 1,
          writes := (nonemptyBufs (chunk100 data)).take (j + 1) }) := by
  obtain ⟨d, rest, rfl⟩ := List.exists_cons_of_ne_nil hd
  constructor
  · intro hconn
    rw [send_to_logstash_cons, hconn]
    rfl
  · intro j hconn hj hfail hok
    rw [send_to_logstash_cons, hconn, if_pos rfl,
      sendBatches_first_fail net.write_ok _ 0 j hj
        (by rwa [Nat.zero_add]) (fun i hi => by rw [Nat.zero_add]; exact hok i hi)]

/-- Closed instance of C6: one record, connection accepted, the single
`sendall` fails. -/
theorem send_failure_aborts_witness :
    send_to_logstash { connect_ok := true, write_ok := fun _ => false }
        [(Record.mk "a").toPyVal] =
      { success := false, connectAttempts := 1,
        writes := (nonemptyBufs (chunk100 [(Record.mk "a").toPyVal])).take 1 } :=
  (send_failure_aborts [(Record.mk "a").toPyVal]
      { connect_ok := true, write_ok := fun _ => false }
      (by simp)).2 0 rfl (by decide) rfl
    (fun i hi => absurd hi (Nat.not_lt_zero i))

/-! ## Lemmas about the retry loop -/

/-- A state that has already succeeded is left untouched: the loop body
never runs again. -/
theorem run_send_loop_done (nets : Nat → Net) : ∀ (n : Nat) (st : LoopState),
    st.success = true → run_send_loop nets st n = st := by
  intro n
  induction n with
  | zero => intro st _; rfl
  | succ n ih =>
    intro st h
    rw [run_send_loop, loop_step, if_pos h]
    exact ih st h

/-- While every attempt fails, each iteration re-sends the same list,
adds one attempt and sleeps the fixed delay. -/
theorem run_send_loop_all_fail (nets : Nat → Net) : ∀ (n : Nat) (st : LoopState),
    st.success = false →
    (∀ i, (send_to_logstash (nets i) st.data_to_send).success = false) →
    run_send_loop nets st n =
      { data_to_send := st.data_to_send, success := false,
        attempts := st.attempts + n,
        sleptSeconds := st.sleptSeconds + RECONNECT_DELAY_SECONDS * n } := by
  intro n
  induction n with
  | zero =>
    intro st hs _
    obtain ⟨d, s, a, sl⟩ := st
    simp only at hs
    subst hs
    simp [run_send_loop]
  | succ n ih =>
    intro st hs hfail
    obtain ⟨d, s, a, sl⟩ := st
    simp only at hs hfail
    subst hs
    rw [run_send_loop]
    have hstep : loop_step (nets (LoopState.mk d false a sl).attempts)
        (LoopState.mk d false a sl) =
        LoopState.mk d false (a + 1) (sl + RECONNECT_DELAY_SECONDS) := by
      rw [loop_step, if_neg (by simp)]
      simp only
      rw [if_neg (by rw [hfail a]; simp)]
    rw [hstep, ih _ rfl hfail]
    simp only [RECONNECT_DELAY_SECONDS]
    congr 1 <;> omega

/-- When the first `k` attempts fail and attempt `k` succeeds, the loop
stops right after attempt `k`, having slept the fixed delay `k` times. -/
theorem run_send_loop_first_success (nets : Nat → Net) : ∀ (n : Nat) (st : LoopState) (k : Nat),
    st.success = false → k < n →
    (∀ i, i < k → (send_to_logstash (nets (st.attempts + i)) st.data_to_send).success = false) →
    (send_to_logstash (nets (st.attempts + k)) st.data_to_send).success = true →
    run_send_loop nets st n =
      { data_to_send := st.data_to_send, success := true,
        attempts := st.attempts + k + 1,
        sleptSeconds := st.sleptSeconds + RECONNECT_DELAY_SECONDS * k } := by
  intro n
  induction n with
  | zero => intro st k _ hk; cases hk
  | succ n ih =>
    intro st k hs hk hfails hsucc
    obtain ⟨d, s, a, sl⟩ := st
    simp only at hs hfails hsucc
    subst hs
    rw [run_send_loop]
    cases k with
    | zero =>
      rw [Nat.add_zero] at hsucc
      have hstep : loop_step (nets (LoopState.mk d false a sl).attempts)
          (LoopState.mk d false a sl) = LoopState.mk d true (a + 1) sl := by
        rw [loop_step, if_neg (by simp)]
        simp only
        rw [if_pos hsucc]
      rw [hstep, run_send_loop_done nets n _ rfl]
      simp only [RECONNECT_DELAY_SECONDS]
      congr 1
    | succ k =>
      have hfail0 : (send_to_logstash (nets a) d).success = false := by
        have := hfails 0 (Nat.succ_pos k)
        rwa [Nat.add_zero] at this
      have hstep : loop_step (nets (LoopState.mk d false a sl).attempts)
          (LoopState.mk d false a sl) =
          LoopState.mk d false (a + 1) (sl + RECONNECT_DELAY_SECONDS) := by
        rw [loop_step, if_neg (by simp)]
        simp only
        rw [if_neg (by rw [hfail0]; simp)]
      rw [hstep,
        ih (LoopState.mk d false (a + 1) (sl + RECONNECT_DELAY_SECONDS)) k rfl
          (by omega)
          (fun i hi => by
            have := hfails (i + 1) (by omega)
            simpa [show a + (i + 1) = a + 1 + i by omega] using this)
          (by
            have := hsucc
            simpa [show a + (k + 1) = a + 1 + k by omega] using this)]
      simp only [RECONNECT_DELAY_SECONDS]
      congr 1 <;> omega

/-! ## Claim C3 -/

/-- C3: the orchestrator's send loop keeps the full original record list
unchanged across attempts; while every attempt fails it runs on without
bound, sleeping the fixed 5-second delay after each failure; and it stops
exactly after the first successful attempt. -/
theorem retry_loop_behaviour (nets : Nat → Net) (data : List PyVal) (n : Nat) :
    ((run_send_loop nets (initLoopState data) n).data_to_send = data) ∧
    ((∀ i, (send_to_logstash (nets i) data).success = false) →
      run_send_loop nets (initLoopState data) n =
        { data_to_send := data, success := false, attempts := n,
          sleptSeconds := RECONNECT_DELAY_SECONDS * n }) ∧
    (∀ k, k < n →
      (∀ i, i < k → (send_to_logstash (nets i) data).success = false) →
      (send_to_logstash (nets k) data).success = true →
      run_send_loop nets (initLoopState data) n =
        { data_to_send := data, success := true, attempts := k + 1,
          sleptSeconds := RECONNECT_DELAY_SECONDS * k }) := by
  refine ⟨?_, ?_, ?_⟩
  · suffices h : ∀ (m : Nat) (st : LoopState),
        (run_send_loop nets st m).data_to_send = st.data_to_send by
      exact h n (initLoopState data)
    intro m
    induction m with
    | zero => intro st; rfl
    | succ m ih =>
      intro st
      rw [run_send_loop, ih]
      rw [loop_step]
      by_cases h : st.success = true
      · rw [if_pos h]
      · rw [if_neg h]
        simp only
        by_cases h2 : (send_to_logstash (nets st.attempts) st.data_to_send).success = true
        · rw [if_pos h2]
        · rw [if_neg h2]
  · intro hfail
    have := run_send_loop_all_fail nets n (initLoopState data) rfl hfail
    simpa [initLoopState] using this
  · intro k hk hfails hsucc
    have := run_send_loop_first_success nets n (initLoopState data) k rfl hk
      (fun i hi => by simpa [initLoopState] using hfails i hi)
      (by simpa [initLoopState] using hsucc)
    simpa [initLoopState] using this

/-- Closed instance of C3: an endpoint that refuses every connection;
after 3 iterations the loop has retried 3 times with the same list and
slept 5 seconds each time, and has not exited. -/
theorem retry_loop_behaviour_witness :
    ((run_send_loop (fun _ => { connect_ok := false, write_ok := fun _ => true })
        (initLoopState [(Record.mk "a").toPyVal]) 3).data_to_send =
      [(Record.mk "a").toPyVal]) ∧
    run_send_loop (fun _ => { connect_ok := false, write_ok := fun _ => true })
        (initLoopState [(Record.mk "a").toPyVal]) 3 =
      { data_to_send := [(Record.mk "a").toPyVal], success := false, attempts := 3,
        sleptSeconds := RECONNECT_DELAY_SECONDS * 3 } :=
  ⟨(retry_loop_behaviour (fun _ => { connect_ok := false, write_ok := fun _ => true })
      [(Record.mk "a").toPyVal] 3).1,
    (retry_loop_behaviour (fun _ => { connect_ok := false, write_ok := fun _ => true })
      [(Record.mk "a").toPyVal] 3).2.1 (fun i => by decide)⟩

/-! ## Claims C4, C9, C7 and C10 -/

/-- C4: `process_log_file` is total (never raises out of the call: both
`except` clauses absorb the exception) and a file that cannot be opened
yields the empty record sequence, so the caller's loop continues. -/
theorem process_log_file_never_fails (f : PyFile) :
    (f.openResult = none → process_log_file f = []) ∧
    (∀ ls err, f.openResult = some (ls, err) →
      process_log_file f = ls.filterMap log_parse) := by
  constructor
  · intro h
    unfold process_log_file
    rw [h]
  · intro ls err h
    unfold process_log_file
    rw [h]

/-- Closed instance of C4 at an unopenable file. -/
theorem process_log_file_never_fails_witness :
    process_log_file { openResult := none } = [] :=
  (process_log_file_never_fails { openResult := none }).1 rfl

/-- C9: when a read error strikes after `k` lines of a file with lines
`full` were read, `process_log_file` returns the records of those `k`
lines — a prefix of the full file's records — not the empty sequence. -/
theorem process_log_file_read_error_prefix (full : List String) (k : Nat) :
    process_log_file { openResult := some (full.take k, true) } =
      (full.take k).filterMap log_parse ∧
    ∃ t, full.filterMap log_parse =
      process_log_file { openResult := some (full.take k, true) } ++ t := by
  constructor
  · rfl
  · refine ⟨(full.drop k).filterMap log_parse, ?_⟩
    show full.filterMap log_parse = (full.take k).filterMap log_parse ++ _
    rw [← List.filterMap_append, List.take_append_drop]

/-- C7: the concrete two-file scenario: `a.txt` = ["foo", "", "  bar  "],
`b.txt` = ["baz"] produce exactly [⟨"foo"⟩, ⟨"bar"⟩, ⟨"baz"⟩]: order
a-then-b, line order kept, the blank line skipped, whitespace trimmed. -/
theorem pipeline_two_files_scenario :
    collectRecords
      [{ openResult := some (["foo", "", "  bar  "], false) },
       { openResult := some (["baz"], false) }] =
      [{ raw_content := "foo" }, { raw_content := "bar" }, { raw_content := "baz" }] := by
  decide

/-- C10: every record `log_parse` can produce serializes under
`json.dumps`, a batch of such records serializes to exactly the
concatenation of each record's line (nothing skipped), and a nonempty
record batch never serializes to the empty buffer (so no batch is
dropped either). -/
theorem record_serialization_total :
    (∀ line r, log_parse line = some r → dumps r.toPyVal ≠ none) ∧
    (∀ rs : List Record, serializeBatch (rs.map Record.toPyVal) =
      concatAll (rs.map fun r => (dumps r.toPyVal).getD "" ++ "\n")) ∧
    (∀ rs : List Record, rs ≠ [] → serializeBatch (rs.map Record.toPyVal) ≠ "") := by
  refine ⟨?_, ?_, ?_⟩
  · intro line r _
    simp [Record.toPyVal, dumps]
  · intro rs
    rw [serializeBatch_eq, List.map_map]
    have hcong : ∀ r ∈ rs, (wireLine ∘ Record.toPyVal) r =
        (dumps r.toPyVal).getD "" ++ "\n" := by
      intro r _
      show wireLine r.toPyVal = _
      simp [wireLine, Record.toPyVal, dumps]
    rw [List.map_eq_map_iff.mpr hcong]
  · intro rs hne
    obtain ⟨r, rest, rfl⟩ := List.exists_cons_of_ne_nil hne
    exact serializeBatch_ne_empty _ r.toPyVal (by simp)
      (by simp [Record.toPyVal, dumps])

/-- Closed instance of C10 at a concrete parsed record. -/
theorem record_serialization_total_witness :
    dumps (Record.mk "hi").toPyVal ≠ none :=
  record_serialization_total.1 "  hi  " (Record.mk "hi") (by decide)

end SendPy
